import Mathlib

/-!
# Verification of the real-time transcription pipeline and transcript store

This file gives a shallow embedding of the speech-segmentation /
transcription pipeline of `mcp-servers/audio-capture/transcription_service.py`
and of the transcript store operations of `shared/storage/database.py`,
and proves (or refutes) the behavioural properties stated for them.

Modelling conventions:
- An audio chunk (one fixed-duration frame read from the device) is a list
  of 16-bit PCM samples, modelled as `List Int`.  At the default
  configuration (16000 Hz, 30 ms) a chunk has 480 samples.
- Voice-activity classification of a frame is a `Bool`; a classifier call
  that raises internally is an `Except` value (see `isSpeechOf`).
- Exceptions of the Python code are modelled with `Except`; a function that
  returns normally yields `Except.ok`.
- Log output is modelled explicitly, because the code distinguishes
  `logger.warning` from `logger.error`.
- Timestamps stored in the database are ISO-8601 strings whose string order
  agrees with time order; we model them as integers (time units since an
  epoch; the unit follows the function argument: minutes for
  `get_recent_transcripts`, days for `cleanup_old_transcripts` and
  `search_audio_transcripts`).
- Floating-point metadata (language probability, duration) is carried as
  opaque strings; no claim depends on its numeric value.  The int16 → float
  normalisation (scale 1/32768) applied before the engine call is a
  bijection on sample values, so the engine adapter consumes the integer
  samples directly.
-/

/-- One audio frame's raw PCM samples. -/
abbrev Chunk := List Int

/-- Logging levels used by the service (the code distinguishes
`logger.info`, `logger.warning` and `logger.error`). -/
inductive LogLevel where
  | info
  | warning
  | error
deriving DecidableEq, Repr

/-- One log record: a level and a message. -/
structure LogEvent where
  level : LogLevel
  message : String
deriving DecidableEq, Repr

/-! ## Utterance assembler

Embeds the VAD/buffering logic of `TranscriptionService._process_audio`
(transcription_service.py lines 187-217).  The mutable fields
`self.speech_buffer` and `self.silence_chunks` become `AsmState`. -/

/-- The utterance assembler's mutable state: `speech_buffer` and
`silence_chunks` of the service. -/
structure AsmState where
  speech_buffer : List Chunk
  silence_chunks : Nat
deriving DecidableEq, Repr

/-- The initial assembler state set in `TranscriptionService.__init__`:
empty buffer, zero silence chunks. -/
def initAsm : AsmState := ⟨[], 0⟩

/-- One iteration of the `_process_audio` loop body on a dequeued chunk
whose VAD classification is `isSp`.  Returns the new state and the buffer
handed to `_transcribe_buffer` (the transcription stage), if any.

Mirrors transcription_service.py lines 200-210:
if speech, append the chunk and reset the silence counter; else, if the
buffer is non-empty, increment the counter and flush once it reaches
`max_silence_chunks` (`thr`); a silence chunk with an empty buffer does
nothing. -/
def stepChunk (thr : Nat) (s : AsmState) (c : Chunk) (isSp : Bool) :
    AsmState × Option (List Chunk) :=
  if isSp then
    (⟨s.speech_buffer ++ [c], 0⟩, none)
  else if 0 < s.speech_buffer.length then
    if thr ≤ s.silence_chunks + 1 then
      (⟨[], 0⟩, some s.speech_buffer)
    else
      (⟨s.speech_buffer, s.silence_chunks + 1⟩, none)
  else
    (s, none)

/-- The assembler state after the `_process_audio` loop has consumed the
given classified chunks. -/
def runAsm (thr : Nat) (s : AsmState) : List (Chunk × Bool) → AsmState
  | [] => s
  | f :: rest => runAsm thr (stepChunk thr s f.1 f.2).1 rest

/-- The buffers handed to `_transcribe_buffer` while the `_process_audio`
loop consumes the given classified chunks (not counting the final flush at
loop exit). -/
def emitsDuring (thr : Nat) (s : AsmState) : List (Chunk × Bool) → List (List Chunk)
  | [] => []
  | f :: rest =>
      (stepChunk thr s f.1 f.2).2.toList ++
        emitsDuring thr (stepChunk thr s f.1 f.2).1 rest

/-- The final flush at `_process_audio` loop exit (transcription_service.py
lines 215-217): if the buffer is non-empty, it is handed to
`_transcribe_buffer`; the state itself is NOT modified (the code clears
`speech_buffer` and `silence_chunks` only on the in-loop flush). -/
def stopFlush (s : AsmState) : AsmState × Option (List Chunk) :=
  if 0 < s.speech_buffer.length then (s, some s.speech_buffer) else (s, none)

/-- All buffers handed to the transcription stage for one run of the
process loop over `frames`, including the final flush at loop exit. -/
def emitAll (thr : Nat) (s : AsmState) (frames : List (Chunk × Bool)) :
    List (List Chunk) :=
  emitsDuring thr s frames ++ (stopFlush (runAsm thr s frames)).2.toList

/-- The buffers handed to the transcription stage over a whole listening
session starting from the initial state. -/
def processAudio (thr : Nat) (frames : List (Chunk × Bool)) : List (List Chunk) :=
  emitAll thr initAsm frames

/-! ## Specification-side view: maximal speech runs

The spec says the assembler emits exactly one buffer per maximal run of
speech frames whose internal silence gaps are each shorter than the
hangover threshold.  The following definitions formalise that sentence
directly: `collectRun` gathers the speech chunks of the current run while
the gap since the last speech frame stays below `thr`, and closes the run
when a speech frame arrives after a gap of at least `thr`. -/

/-- Continue the current maximal run `cur`, with `g` silence frames seen
since its last speech frame; a speech frame after a gap `≥ thr` starts a
new maximal run. -/
def collectRun (thr : Nat) (cur : List Chunk) (g : Nat) :
    List (Chunk × Bool) → List (List Chunk)
  | [] => [cur]
  | (c, true) :: rest =>
      if thr ≤ g then cur :: collectRun thr [c] 0 rest
      else collectRun thr (cur ++ [c]) 0 rest
  | (_, false) :: rest => collectRun thr cur (g + 1) rest

/-- The maximal runs of speech chunks in a classified frame sequence,
where two speech frames belong to the same run exactly when fewer than
`thr` silence frames separate them. -/
def specRuns (thr : Nat) : List (Chunk × Bool) → List (List Chunk)
  | [] => []
  | (_, false) :: rest => specRuns thr rest
  | (c, true) :: rest => collectRun thr [c] 0 rest

/-! ## Voice-activity classification with error containment

Embeds `TranscriptionService._is_speech` (transcription_service.py lines
219-232): the raw `webrtcvad` call either returns a `Bool` or raises; the
wrapper catches any exception, logs `logger.error("VAD error: ...")` and
returns `False`. -/

/-- The result of `_is_speech` applied to a raw VAD call outcome: the
classification actually used, and the log records produced. -/
def isSpeechOf (r : Except String Bool) : Bool × List LogEvent :=
  match r with
  | .ok b => (b, [])
  | .error _ => (false, [⟨LogLevel.error, "VAD error"⟩])

/-- One `_process_audio` iteration where the chunk's raw VAD call outcome
is `r`: the classification used by the assembler is `(isSpeechOf r).1`.
Total by construction: a classifier exception never propagates. -/
def stepVad (thr : Nat) (s : AsmState) (c : Chunk) (r : Except String Bool) :
    AsmState × Option (List Chunk) :=
  stepChunk thr s c (isSpeechOf r).1

/-! ## Transcription engine adapter and transcript emitter

Embeds `TranscriptionService._transcribe_buffer` (transcription_service.py
lines 234-292). -/

/-- The output record built by the emitter (`shared/models/audio_transcript.py`
fields used by `_transcribe_buffer`).  `confidence` is always `none` in
this pipeline. -/
structure Transcript where
  timestamp : String
  source : String
  text : String
  speaker : String
  confidence : Option Int
  meta_model : String
  meta_language : String
  meta_language_probability : String
  meta_duration : String
deriving DecidableEq, Repr

/-- What a successful engine call returns: ordered text segments plus
per-call metadata (`segments, info` of `whisper_model.transcribe`). -/
structure EngineResult where
  segments : List String
  language : String
  language_probability : String
  duration : String
deriving DecidableEq, Repr

/-- The audio handed to the engine for a buffered utterance, if any:
`_transcribe_buffer` returns early when the buffer is empty, and discards
the joined audio when it holds fewer than `sampleRate * 0.5` samples
(written `2 * length < sampleRate`; exact for the valid, even sample
rates).  `none` means the engine is never invoked. -/
def engineInput (sampleRate : Nat) (buffer : List Chunk) : Option (List Int) :=
  if buffer.isEmpty then none
  else
    let audio := buffer.flatten
    if 2 * audio.length < sampleRate then none
    else some audio

/-- Python's `" ".join(parts)`. -/
def joinSpace (parts : List String) : String :=
  String.intercalate " " parts

/-- Python's string-strip whitespace set: space, tab, newline, carriage
return, vertical tab, form feed. -/
def isPySpace (c : Char) : Bool :=
  c = ' ' || c = '\t' || c = '\n' || c = '\r' ||
    c = Char.ofNat 11 || c = Char.ofNat 12

/-- Python's `str.strip()`: drop leading and trailing whitespace. -/
def pyStrip (s : String) : String :=
  ⟨((s.data.dropWhile isPySpace).reverse.dropWhile isPySpace).reverse⟩

/-- The transcript-emitter tail of `_transcribe_buffer` (lines 258-292),
applied to a successful engine result: collect the segment texts; if any,
join with a single space and strip; if the stripped text is non-empty,
build the `AudioTranscript`.  Returns the transcript created, if any. -/
def transcribeEmit (res : EngineResult) (nowIso modelSize : String) :
    Option Transcript :=
  if res.segments.isEmpty then none
  else
    let text := pyStrip (joinSpace res.segments)
    if text = "" then none
    else
      some ⟨nowIso, "microphone", text, "user", none,
            modelSize, res.language, res.language_probability, res.duration⟩

/-- The transcripts handed to the registered callback for one engine
result (lines 288-290: the callback is invoked once per created
transcript, and only if a callback is registered). -/
def callbackDeliveries (cbRegistered : Bool) (res : EngineResult)
    (nowIso modelSize : String) : List Transcript :=
  if cbRegistered then (transcribeEmit res nowIso modelSize).toList else []

/-- All of `_transcribe_buffer` for one buffered utterance: engine gate
(`engineInput`) followed by the emitter. -/
def transcribeBuffer (sampleRate : Nat) (engine : List Int → EngineResult)
    (nowIso modelSize : String) (buffer : List Chunk) : Option Transcript :=
  match engineInput sampleRate buffer with
  | none => none
  | some audio => transcribeEmit (engine audio) nowIso modelSize

/-- The transcripts emitted over a whole listening session: each buffer
handed to the transcription stage goes through `transcribeBuffer`. -/
def pipelineTranscripts (thr sampleRate : Nat) (engine : List Int → EngineResult)
    (nowIso modelSize : String) (frames : List (Chunk × Bool)) : List Transcript :=
  (processAudio thr frames).filterMap (transcribeBuffer sampleRate engine nowIso modelSize)

/-! ## Capture loop

Embeds `TranscriptionService._capture_audio` (transcription_service.py
lines 162-185).  A device-read trace is a list of `Except` outcomes: `.ok`
yields a chunk, `.error` is an exception raised by `stream.read`. -/

/-- The capture loop's view of shared service state: the `is_listening`
flag, the enqueued-but-not-dequeued frames of `audio_queue`, and the log. -/
structure CapState where
  is_listening : Bool
  queued : List Chunk
  logs : List LogEvent
deriving DecidableEq, Repr

/-- The inner `while self.is_listening` loop of `_capture_audio` (lines
175-181) run over a device-read trace: a successful read is enqueued; a
read exception is caught, logged with `logger.error("Error reading audio")`
and the loop breaks — note that `is_listening` is NOT changed by this
path. -/
def captureReads (s : CapState) : List (Except String Chunk) → CapState
  | [] => s
  | r :: rs =>
      if s.is_listening then
        match r with
        | .ok d => captureReads { s with queued := s.queued ++ [d] } rs
        | .error _ =>
            { s with logs := s.logs ++ [⟨LogLevel.error, "Error reading audio"⟩] }
      else s

/-- The whole `_capture_audio` body: if opening the stream raises, the
outer handler logs `logger.error("Error in audio capture")` and sets
`is_listening := false` (lines 183-185); otherwise the read loop runs. -/
def captureAudio (openResult : Except String Unit) (reads : List (Except String Chunk))
    (s : CapState) : CapState :=
  match openResult with
  | .error _ =>
      { s with logs := s.logs ++ [⟨LogLevel.error, "Error in audio capture"⟩],
               is_listening := false }
  | .ok _ => captureReads s reads

/-! ## Pipeline controller: `start_listening`

Embeds `TranscriptionService.start_listening` (transcription_service.py
lines 116-138).  Callbacks are identified by a number; thread counts track
how many capture / transcription loops have been spawned and are alive. -/

/-- The controller-level service state. -/
structure SvcState where
  is_listening : Bool
  transcript_callback : Option Nat
  capture_threads : Nat
  transcription_threads : Nat
  logs : List LogEvent
deriving DecidableEq, Repr

/-- `start_listening(callback)`: if already listening, log
`logger.warning("Already listening")` and return — no exception is raised,
no thread is spawned, the callback is not replaced.  Otherwise initialise
components, register the callback, set the flag and spawn the capture and
transcription threads.  The `Except` result records whether the call
raises to the caller. -/
def start_listening (s : SvcState) (cb : Nat) : Except String SvcState :=
  if s.is_listening then
    .ok { s with logs := s.logs ++ [⟨LogLevel.warning, "Already listening"⟩] }
  else
    .ok { is_listening := true,
          transcript_callback := some cb,
          capture_threads := s.capture_threads + 1,
          transcription_threads := s.transcription_threads + 1,
          logs := s.logs ++ [⟨LogLevel.info, "Started listening"⟩] }

/-! ## The inter-loop queue

`TranscriptionService.__init__` builds `self.audio_queue = queue.Queue()`
(line 79), i.e. a Python `queue.Queue` with the default `maxsize=0`.
Python semantics: when `maxsize <= 0` the queue size is infinite and
`put` never blocks; otherwise `put` blocks while `len(items) >= maxsize`. -/

/-- A Python `queue.Queue` of audio chunks: its `maxsize` and current
items, first-in first-out. -/
structure PyQueue where
  maxsize : Int
  items : List Chunk
deriving DecidableEq, Repr

/-- `Queue.put(item)`: `some` of the new queue when the put completes
immediately, `none` when the queue is full and the call would block. -/
def PyQueue.put (q : PyQueue) (c : Chunk) : Option PyQueue :=
  if q.maxsize ≤ 0 ∨ (q.items.length : Int) < q.maxsize then
    some { q with items := q.items ++ [c] }
  else none

/-- The queue as constructed in `__init__`: `queue.Queue()` with the
default `maxsize = 0`. -/
def initAudioQueue : PyQueue := ⟨0, []⟩

/-- The reachable states of the service's audio queue: it starts as
`initAudioQueue`; the capture loop enqueues (when the put completes) and
the process loop dequeues the oldest item. -/
inductive QueueReach : PyQueue → Prop
  | init : QueueReach initAudioQueue
  | enq {q q' : PyQueue} {c : Chunk} :
      QueueReach q → q.put c = some q' → QueueReach q'
  | deq {q : PyQueue} {c : Chunk} {rest : List Chunk} :
      QueueReach q → q.items = c :: rest → QueueReach { q with items := rest }

/-! ## Transcript store

Embeds the `audio_transcripts` operations of `shared/storage/database.py`.
A row carries the columns used by the claims; `call_id` is nullable
(`Option String`).  SQL `ORDER BY timestamp` is modelled with an insertion
sort and `LIMIT` with `List.take`; the FTS `MATCH` operator is a black-box
predicate parameter. -/

/-- One row of the `audio_transcripts` table (the columns the retention
and retrieval claims touch). -/
structure TranscriptRow where
  id : Nat
  timestamp : Int
  source : String
  speaker : String
  text : String
  call_id : Option String
deriving DecidableEq, Repr

/-- Insert `x` into `l` before the first element `y` with `le x y` (stable
insertion step of the `ORDER BY` model). -/
def insertLe {α : Type} (le : α → α → Bool) (x : α) : List α → List α
  | [] => [x]
  | y :: ys => if le x y then x :: y :: ys else y :: insertLe le x ys

/-- Insertion sort by `le` (the model of SQL `ORDER BY`). -/
def sortLe {α : Type} (le : α → α → Bool) : List α → List α
  | [] => []
  | x :: xs => insertLe le x (sortLe le xs)

/-- Ascending comparison on row timestamps (`ORDER BY timestamp ASC`). -/
def tsAsc (a b : TranscriptRow) : Bool := decide (a.timestamp ≤ b.timestamp)

/-- Descending comparison on row timestamps (`ORDER BY timestamp DESC`). -/
def tsDesc (a b : TranscriptRow) : Bool := decide (b.timestamp ≤ a.timestamp)

/-- `Database.get_recent_transcripts(minutes, source)` (database.py lines
372-411): select the rows with `timestamp >= now - minutes` (time unit:
minutes), optionally filtered by source, ordered by timestamp ascending. -/
def get_recent_transcripts (now minutes : Int) (source : Option String)
    (db : List TranscriptRow) : List TranscriptRow :=
  sortLe tsAsc (db.filter (fun r =>
    decide (now - minutes ≤ r.timestamp) &&
      match source with
      | some s => decide (r.source = s)
      | none => true))

/-- The default `limit` of `Database.search_audio_transcripts`. -/
def defaultSearchLimit : Nat := 50

/-- `Database.search_audio_transcripts(query, days_back, limit)`
(database.py lines 413-453): the rows whose text matches the FTS query and
whose `timestamp >= now - days_back` (time unit: days), ordered by
timestamp descending, truncated to `limit` rows. -/
def search_audio_transcripts (ftsMatch : String → String → Bool)
    (now daysBack : Int) (lim : Nat) (query : String)
    (db : List TranscriptRow) : List TranscriptRow :=
  (sortLe tsDesc (db.filter (fun r =>
    ftsMatch query r.text && decide (now - daysBack ≤ r.timestamp)))).take lim

/-- `Database.cleanup_old_transcripts(retention_days)` (database.py lines
455-477): delete the rows with `timestamp < now - retention_days` (time
unit: days) whose source differs from the string `"vapi"`; keep all
others.  The `call_id` column is not consulted. -/
def cleanup_old_transcripts (now retentionDays : Int)
    (db : List TranscriptRow) : List TranscriptRow :=
  db.filter (fun r =>
    !(decide (r.timestamp < now - retentionDays) && decide (r.source ≠ "vapi")))

/-! ## Assembler lemmas -/

/-- `stepChunk` on a speech chunk: append and reset the counter. -/
lemma stepChunk_speech (thr : Nat) (s : AsmState) (c : Chunk) :
    stepChunk thr s c true = (⟨s.speech_buffer ++ [c], 0⟩, none) := rfl

/-- `stepChunk` on a silence chunk with an empty buffer: no change. -/
lemma stepChunk_silence_empty (thr : Nat) (s : AsmState) (c : Chunk)
    (h : s.speech_buffer = []) :
    stepChunk thr s c false = (s, none) := by
  simp [stepChunk, h]

/-- `stepChunk` on a silence chunk that drives the counter to the
threshold: flush the buffer, reset the state. -/
lemma stepChunk_silence_flush (thr : Nat) (s : AsmState) (c : Chunk)
    (h : s.speech_buffer ≠ []) (hthr : thr ≤ s.silence_chunks + 1) :
    stepChunk thr s c false = (⟨[], 0⟩, some s.speech_buffer) := by
  simp [stepChunk, List.length_pos.mpr h, hthr]

/-- `stepChunk` on a silence chunk below the threshold: count it. -/
lemma stepChunk_silence_wait (thr : Nat) (s : AsmState) (c : Chunk)
    (h : s.speech_buffer ≠ []) (hthr : ¬ thr ≤ s.silence_chunks + 1) :
    stepChunk thr s c false = (⟨s.speech_buffer, s.silence_chunks + 1⟩, none) := by
  simp [stepChunk, List.length_pos.mpr h, hthr]

lemma emitAll_nil (thr : Nat) (s : AsmState) :
    emitAll thr s [] = (stopFlush s).2.toList := rfl

lemma emitAll_cons (thr : Nat) (s : AsmState) (f : Chunk × Bool)
    (rest : List (Chunk × Bool)) :
    emitAll thr s (f :: rest) =
      (stepChunk thr s f.1 f.2).2.toList ++
        emitAll thr (stepChunk thr s f.1 f.2).1 rest := by
  simp [emitAll, emitsDuring, runAsm, List.append_assoc]

/-- Once the silence gap has reached the threshold, the pending run is
closed: continuing `collectRun` just prepends the pending run to the
maximal runs of the remaining frames. -/
lemma collectRun_of_ge (thr : Nat) :
    ∀ (frames : List (Chunk × Bool)) (cur : List Chunk) (g : Nat),
      thr ≤ g → collectRun thr cur g frames = cur :: specRuns thr frames := by
  intro frames
  induction frames with
  | nil => intro cur g _; rfl
  | cons f rest ih =>
      intro cur g hg
      obtain ⟨c, b⟩ := f
      cases b with
      | true => simp [collectRun, specRuns, hg]
      | false =>
          have hg1 : thr ≤ g + 1 := Nat.le_succ_of_le hg
          simp [collectRun, specRuns, ih cur (g + 1) hg1]

/-- The assembler refines the maximal-run decomposition: started from the
initial state (or any state with an empty buffer), the loop plus final
flush hand over exactly the maximal runs; started mid-run with a buffer
and a below-threshold gap, they hand over exactly the runs `collectRun`
describes. -/
lemma emitAll_eq (thr : Nat) (hthr : 0 < thr) :
    ∀ frames : List (Chunk × Bool),
      (∀ g : Nat, emitAll thr ⟨[], g⟩ frames = specRuns thr frames) ∧
      (∀ (buf : List Chunk) (g : Nat), buf ≠ [] → g < thr →
        emitAll thr ⟨buf, g⟩ frames = collectRun thr buf g frames) := by
  intro frames
  induction frames with
  | nil =>
      refine ⟨?_, ?_⟩
      · intro g
        simp [emitAll_nil, stopFlush, specRuns]
      · intro buf g hbuf _
        simp [emitAll_nil, stopFlush, collectRun, List.length_pos.mpr hbuf]
  | cons f rest ih =>
      obtain ⟨c, b⟩ := f
      refine ⟨?_, ?_⟩
      · intro g
        cases b with
        | true =>
            have h1 := ih.2 [c] 0 (by simp) hthr
            simp [emitAll_cons, stepChunk_speech, specRuns, h1]
        | false =>
            have h1 := ih.1 g
            simp [emitAll_cons, stepChunk_silence_empty, specRuns, h1]
      · intro buf g hbuf hg
        cases b with
        | true =>
            have hnotle : ¬ thr ≤ g := Nat.not_le.mpr hg
            have h1 := ih.2 (buf ++ [c]) 0 (by simp) hthr
            simp [emitAll_cons, stepChunk_speech, collectRun, hnotle, h1]
        | false =>
            by_cases hle : thr ≤ g + 1
            · have hstep := stepChunk_silence_flush thr ⟨buf, g⟩ c hbuf hle
              have h1 := ih.1 0
              have h2 := collectRun_of_ge thr rest buf (g + 1) hle
              simp [emitAll_cons, hstep, collectRun, h1, h2]
            · have hstep := stepChunk_silence_wait thr ⟨buf, g⟩ c hbuf hle
              have h1 := ih.2 buf (g + 1) hbuf (Nat.lt_of_not_le hle)
              simp [emitAll_cons, hstep, collectRun, h1]

/-! ## Claim theorems -/

/-- C1: for every sequence of classified frames fed to the utterance
assembler (the session ending with the loop-exit flush), the buffers
handed to the transcription stage are exactly the maximal runs of speech
frames whose internal silence gaps are each shorter than the hangover
threshold of 30 — in particular exactly one buffer per maximal run — and
any handed buffer whose accumulated audio is shorter than the 0.5-second
minimum (at 16000 Hz: fewer than 8000 samples) is never handed to the
engine. -/
theorem assembler_one_buffer_per_run :
    ∀ frames : List (Chunk × Bool),
      processAudio 30 frames = specRuns 30 frames ∧
      (processAudio 30 frames).length = (specRuns 30 frames).length ∧
      ∀ b ∈ processAudio 30 frames, 2 * b.flatten.length < 16000 →
        engineInput 16000 b = none := by
  intro frames
  have h : processAudio 30 frames = specRuns 30 frames :=
    (emitAll_eq 30 (by decide) frames).1 0
  refine ⟨h, by rw [h], ?_⟩
  intro b _ hshort
  by_cases hb : b.isEmpty
  · simp [engineInput, hb]
  · simp [engineInput, hb]
    simpa using hshort

/-- Witness for C1 at a concrete input: one speech frame forms one run,
and its 1-sample buffer is below the minimum duration, so the engine gets
nothing. -/
theorem assembler_one_buffer_per_run_witness :
    processAudio 30 [(([0] : Chunk), true)] = [[[0]]] ∧
    [[(0 : Int)]] ∈ processAudio 30 [(([0] : Chunk), true)] ∧
    2 * ([[(0 : Int)]] : List Chunk).flatten.length < 16000 ∧
    engineInput 16000 [[(0 : Int)]] = none := by
  refine ⟨by decide, by decide, by decide, ?_⟩
  exact (assembler_one_buffer_per_run [([0], true)]).2.2 [[0]] (by decide) (by decide)

/-! ## Segment-composition lemmas for the assembler -/

lemma runAsm_append (thr : Nat) :
    ∀ (xs ys : List (Chunk × Bool)) (s : AsmState),
      runAsm thr s (xs ++ ys) = runAsm thr (runAsm thr s xs) ys := by
  intro xs
  induction xs with
  | nil => intro ys s; rfl
  | cons f rest ih => intro ys s; simp [runAsm, ih]

lemma emitsDuring_append (thr : Nat) :
    ∀ (xs ys : List (Chunk × Bool)) (s : AsmState),
      emitsDuring thr s (xs ++ ys) =
        emitsDuring thr s xs ++ emitsDuring thr (runAsm thr s xs) ys := by
  intro xs
  induction xs with
  | nil => intro ys s; rfl
  | cons f rest ih => intro ys s; simp [emitsDuring, runAsm, ih]

/-- A run of speech frames started with a zeroed silence counter: nothing
is emitted, the chunks are appended in order, the counter stays zero. -/
lemma speech_run (thr : Nat) :
    ∀ (cs buf : List Chunk),
      emitsDuring thr ⟨buf, 0⟩ (cs.map (fun c => (c, true))) = [] ∧
      runAsm thr ⟨buf, 0⟩ (cs.map (fun c => (c, true))) = ⟨buf ++ cs, 0⟩ := by
  intro cs
  induction cs with
  | nil => intro buf; simp [emitsDuring, runAsm]
  | cons c rest ih =>
      intro buf
      have h := ih (buf ++ [c])
      simp [emitsDuring, runAsm, stepChunk_speech, h.1, h.2]

/-- Silence frames with an empty buffer: nothing happens. -/
lemma silence_run_empty (thr : Nat) :
    ∀ (fs : List Chunk) (g : Nat),
      emitsDuring thr ⟨[], g⟩ (fs.map (fun c => (c, false))) = [] ∧
      runAsm thr ⟨[], g⟩ (fs.map (fun c => (c, false))) = ⟨[], g⟩ := by
  intro fs
  induction fs with
  | nil => intro g; simp [emitsDuring, runAsm]
  | cons c rest ih =>
      intro g
      have hstep := stepChunk_silence_empty thr ⟨[], g⟩ c rfl
      simp [emitsDuring, runAsm, hstep, ih g]

/-- Silence frames over a non-empty buffer that stay strictly below the
hangover threshold: nothing is emitted, the counter advances. -/
lemma silence_run_wait (thr : Nat) :
    ∀ (fs buf : List Chunk) (g : Nat), buf ≠ [] → g + fs.length < thr →
      emitsDuring thr ⟨buf, g⟩ (fs.map (fun c => (c, false))) = [] ∧
      runAsm thr ⟨buf, g⟩ (fs.map (fun c => (c, false))) = ⟨buf, g + fs.length⟩ := by
  intro fs
  induction fs with
  | nil => intro buf g hbuf _; simp [emitsDuring, runAsm]
  | cons c rest ih =>
      intro buf g hbuf hlt
      have hg1 : ¬ thr ≤ g + 1 := by
        simp only [List.length_cons] at hlt; omega
      have hstep := stepChunk_silence_wait thr ⟨buf, g⟩ c hbuf hg1
      have hrec := ih buf (g + 1) hbuf (by simp only [List.length_cons] at hlt; omega)
      simp only [List.length_cons] at *
      simp [emitsDuring, runAsm, hstep, hrec.1, hrec.2]
      omega

/-- Silence frames over a non-empty buffer that drive the counter exactly
to the hangover threshold: the buffer is emitted at the last frame and the
assembler returns to the initial state. -/
lemma silence_run_flush (thr : Nat) :
    ∀ (fs buf : List Chunk) (g : Nat), buf ≠ [] → g + fs.length = thr → g < thr →
      emitsDuring thr ⟨buf, g⟩ (fs.map (fun c => (c, false))) = [buf] ∧
      runAsm thr ⟨buf, g⟩ (fs.map (fun c => (c, false))) = ⟨[], 0⟩ := by
  intro fs
  induction fs with
  | nil => intro buf g hbuf heq hlt; simp at heq; omega
  | cons c rest ih =>
      intro buf g hbuf heq hlt
      by_cases hle : thr ≤ g + 1
      · have hrest : rest = [] := by
          have : rest.length = 0 := by simp only [List.length_cons] at heq; omega
          exact List.eq_nil_of_length_eq_zero this
        have hstep := stepChunk_silence_flush thr ⟨buf, g⟩ c hbuf hle
        subst hrest
        simp [emitsDuring, runAsm, hstep]
      · have hstep := stepChunk_silence_wait thr ⟨buf, g⟩ c hbuf hle
        have hrec := ih buf (g + 1) hbuf
          (by simp only [List.length_cons] at heq; omega) (by omega)
        simp [emitsDuring, runAsm, hstep, hrec.1, hrec.2]

/-! ## The end-to-end scenario of the spec (claim C2)

45 frames at the default configuration (16000 Hz, 30 ms, hence 480
samples per frame, hangover threshold 30): frames 1-4 and 16-45 classify
as silence, frames 5-15 classify as speech.  Frame `i` carries the
constant sample value `i`, so buffer contents identify their frames. -/

/-- The audio of frame `i`: 480 samples of value `i`. -/
def chunkOf (i : Nat) : Chunk := List.replicate 480 ((i : Nat) : Int)

/-- The audio of frames 5-15, in order. -/
def scenarioBufferOf (chunk : Nat → Chunk) : List Chunk :=
  (List.range 11).map (fun k => chunk (k + 5))

/-- The scenario's classified frames 1-45, for an arbitrary assignment of
audio to frame numbers: frames 1-4 silence, frames 5-15 speech, frames
16-45 silence. -/
def scenarioFramesOf (chunk : Nat → Chunk) : List (Chunk × Bool) :=
  ((List.range 4).map (fun k => chunk (k + 1))).map (fun c => (c, false)) ++
    (scenarioBufferOf chunk).map (fun c => (c, true)) ++
    ((List.range 30).map (fun k => chunk (k + 16))).map (fun c => (c, false))

/-- The scenario's frames with their concrete audio. -/
def scenarioFrames : List (Chunk × Bool) := scenarioFramesOf chunkOf

/-- The concrete audio of frames 5-15. -/
def scenarioBuffer : List Chunk := scenarioBufferOf chunkOf

/-- An engine stub returning the single segment `"hello"` for any audio. -/
def helloEngine : List Int → EngineResult :=
  fun _ => ⟨["hello"], "en", "1.0", "0.33"⟩

/-- For any audio assignment: feeding frames 1-44 emits nothing; feeding
all 45 frames hands exactly frames 5-15's audio to the transcription
stage at frame 45 and returns the assembler to the initial state. -/
lemma scenario_emission (chunk : Nat → Chunk) :
    emitsDuring 30 initAsm ((scenarioFramesOf chunk).take 44) = [] ∧
    emitsDuring 30 initAsm (scenarioFramesOf chunk) = [scenarioBufferOf chunk] ∧
    runAsm 30 initAsm (scenarioFramesOf chunk) = initAsm := by
  have hbuf : scenarioBufferOf chunk ≠ [] := by
    simp [scenarioBufferOf, List.range_succ]
  have hsil4e : emitsDuring 30 initAsm
      (((List.range 4).map (fun k => chunk (k + 1))).map (fun c => (c, false))) = [] :=
    (silence_run_empty 30 ((List.range 4).map (fun k => chunk (k + 1))) 0).1
  have hsil4r : runAsm 30 initAsm
      (((List.range 4).map (fun k => chunk (k + 1))).map (fun c => (c, false))) = initAsm :=
    (silence_run_empty 30 ((List.range 4).map (fun k => chunk (k + 1))) 0).2
  have hspe : emitsDuring 30 initAsm
      ((scenarioBufferOf chunk).map (fun c => (c, true))) = [] :=
    (speech_run 30 (scenarioBufferOf chunk) []).1
  have hspr : runAsm 30 initAsm
      ((scenarioBufferOf chunk).map (fun c => (c, true))) =
        ⟨scenarioBufferOf chunk, 0⟩ := by
    have h := (speech_run 30 (scenarioBufferOf chunk) []).2
    simpa using h
  have hlen30 : ((List.range 30).map (fun k => chunk (k + 16))).length = 30 := by simp
  have hflushe : emitsDuring 30 ⟨scenarioBufferOf chunk, 0⟩
      (((List.range 30).map (fun k => chunk (k + 16))).map (fun c => (c, false))) =
        [scenarioBufferOf chunk] :=
    (silence_run_flush 30 ((List.range 30).map (fun k => chunk (k + 16)))
      (scenarioBufferOf chunk) 0 hbuf (by rw [hlen30]) (by omega)).1
  have hflushr : runAsm 30 ⟨scenarioBufferOf chunk, 0⟩
      (((List.range 30).map (fun k => chunk (k + 16))).map (fun c => (c, false))) =
        initAsm :=
    (silence_run_flush 30 ((List.range 30).map (fun k => chunk (k + 16)))
      (scenarioBufferOf chunk) 0 hbuf (by rw [hlen30]) (by omega)).2
  have hlen29 : ((List.range 29).map (fun k => chunk (k + 16))).length = 29 := by simp
  have hwaite : emitsDuring 30 ⟨scenarioBufferOf chunk, 0⟩
      (((List.range 29).map (fun k => chunk (k + 16))).map (fun c => (c, false))) = [] :=
    (silence_run_wait 30 ((List.range 29).map (fun k => chunk (k + 16)))
      (scenarioBufferOf chunk) 0 hbuf (by rw [hlen29]; omega)).1
  have htake : (scenarioFramesOf chunk).take 44 =
      ((List.range 4).map (fun k => chunk (k + 1))).map (fun c => (c, false)) ++
        ((scenarioBufferOf chunk).map (fun c => (c, true)) ++
          ((List.range 29).map (fun k => chunk (k + 16))).map (fun c => (c, false))) := by
    rw [scenarioFramesOf, List.append_assoc, List.take_append_eq_append_take,
        List.take_append_eq_append_take]
    rw [List.take_of_length_le (by simp), List.take_of_length_le (by simp [scenarioBufferOf])]
    have h1 : (44 - (((List.range 4).map (fun k => chunk (k + 1))).map
        (fun c : Chunk => (c, false))).length) = 40 := by simp
    have h2 : (40 - ((scenarioBufferOf chunk).map (fun c : Chunk => (c, true))).length) = 29 := by
      simp [scenarioBufferOf]
    rw [h1, h2, ← List.map_take, ← List.map_take, List.take_range]
    norm_num
  refine ⟨?_, ?_, ?_⟩
  · rw [htake, emitsDuring_append, hsil4e, hsil4r, emitsDuring_append, hspe, hspr, hwaite]
    rfl
  · rw [scenarioFramesOf, List.append_assoc, emitsDuring_append, hsil4e, hsil4r,
        emitsDuring_append, hspe, hspr, hflushe]
    rfl
  · rw [scenarioFramesOf, List.append_assoc, runAsm_append, hsil4r, runAsm_append,
        hspr, hflushr]

lemma scenarioBuffer_flatten_length : scenarioBuffer.flatten.length = 5280 := by
  rw [scenarioBuffer, scenarioBufferOf, List.length_flatten, List.map_map]
  simp only [Function.comp_def, chunkOf, List.length_replicate]
  decide

lemma engineInput_scenarioBuffer : engineInput 16000 scenarioBuffer = none := by
  have hne : scenarioBuffer.isEmpty = false := by
    rw [scenarioBuffer, scenarioBufferOf]
    simp [List.range_succ]
  rw [engineInput, hne]
  simp only [Bool.false_eq_true, if_false]
  rw [if_pos]
  rw [scenarioBuffer_flatten_length]
  norm_num

lemma processAudio_scenario : processAudio 30 scenarioFrames = [scenarioBuffer] := by
  have h := scenario_emission chunkOf
  unfold processAudio emitAll scenarioFrames scenarioBuffer
  rw [h.2.1, h.2.2]
  rfl

lemma scenario_no_transcripts_helper :
    pipelineTranscripts 30 16000 helloEngine "t0" "base.en" scenarioFrames = [] := by
  rw [pipelineTranscripts, processAudio_scenario]
  have h : transcribeBuffer 16000 helloEngine "t0" "base.en" scenarioBuffer = none := by
    unfold transcribeBuffer
    rw [engineInput_scenarioBuffer]
  simp [List.filterMap_cons, h]

/-- Counterexample to C2: in the spec's end-to-end scenario no Transcript
is emitted at all — in particular none with text `"hello"` — because the
flushed buffer holds 11 frames = 0.33 s of audio, under the 0.5-second
minimum, so the engine stub is never consulted. -/
theorem scenario_emits_no_transcript :
    ¬ ∃ t ∈ pipelineTranscripts 30 16000 helloEngine "t0" "base.en" scenarioFrames,
        t.text = "hello" := by
  rw [scenario_no_transcripts_helper]
  simp

/-- C2 amended: with frames 5-15 speech and 16-45 silence (hangover 30),
the assembler flushes exactly once, after frame 45, handing over exactly
frames 5-15's audio; but that buffer is 5280 samples = 0.33 s < 0.5 s, so
the engine (stubbed to return `"hello"`) is never invoked and no
Transcript is emitted. -/
theorem scenario_flush_after_45_below_minimum :
    emitsDuring 30 initAsm (scenarioFrames.take 44) = [] ∧
    emitsDuring 30 initAsm scenarioFrames = [scenarioBuffer] ∧
    scenarioBuffer.flatten.length = 5280 ∧
    engineInput 16000 scenarioBuffer = none ∧
    pipelineTranscripts 30 16000 helloEngine "t0" "base.en" scenarioFrames = [] :=
  ⟨(scenario_emission chunkOf).1, (scenario_emission chunkOf).2.1,
    scenarioBuffer_flatten_length, engineInput_scenarioBuffer,
    scenario_no_transcripts_helper⟩

/-- C3 (code defect): stopping the pipeline while the assembler is
accumulating does hand the buffer to the transcription stage regardless of
the silence counter, but the assembler does NOT return to the idle state:
`_transcribe_buffer` never clears `speech_buffer` or `silence_chunks`, so
after the stop the buffer still holds the old utterance — and a later
listening session flushes the stale audio again. -/
theorem stop_flush_leaves_stale_buffer :
    stopFlush ⟨[[(1 : Int)]], 5⟩ = (⟨[[(1 : Int)]], 5⟩, some [[(1 : Int)]]) ∧
    (stopFlush ⟨[[(1 : Int)]], 5⟩).1 ≠ initAsm ∧
    emitsDuring 30 (stopFlush ⟨[[(1 : Int)]], 5⟩).1
      (List.replicate 30 (([] : Chunk), false)) = [[[(1 : Int)]]] := by
  decide

/-- Counterexample to C4: after a device-read error the capture loop has
logged and stopped, but `is_listening` is still `true` — the pipeline is
not marked "not listening". -/
theorem read_error_keeps_listening_flag :
    (captureAudio (.ok ()) [.error "boom"] ⟨true, [], []⟩).is_listening = true ∧
    (captureAudio (.ok ()) [.error "boom"] ⟨true, [], []⟩).logs =
      [⟨LogLevel.error, "Error reading audio"⟩] := by
  constructor <;> rfl

/-- C4 amended: on a read error the capture loop logs
`"Error reading audio"` at error level and stops consuming reads (frames
after the error are never enqueued) without crashing, but the listening
flag keeps its value `true`; the flag becomes `false` only when opening
the audio stream fails. -/
theorem capture_read_error_amended :
    (∀ (good : List Chunk) (e : String) (rest : List (Except String Chunk))
        (q : List Chunk) (l : List LogEvent),
      captureReads ⟨true, q, l⟩ (good.map Except.ok ++ Except.error e :: rest) =
        ⟨true, q ++ good, l ++ [⟨LogLevel.error, "Error reading audio"⟩]⟩) ∧
    (∀ (msg : String) (reads : List (Except String Chunk)) (s : CapState),
      (captureAudio (.error msg) reads s).is_listening = false) := by
  constructor
  · intro good
    induction good with
    | nil => intro e rest q l; simp [captureReads]
    | cons c cs ih =>
        intro e rest q l
        have hgoal : captureReads ⟨true, q, l⟩
            ((c :: cs).map Except.ok ++ Except.error e :: rest) =
            captureReads ⟨true, q ++ [c], l⟩ (cs.map Except.ok ++ Except.error e :: rest) := by
          simp [captureReads]
        rw [hgoal, ih e rest (q ++ [c]) l]
        simp
  · intro msg reads s; rfl

/-! ## Retention rows for claim C5 -/

/-- A 100-day-old microphone record (cleanup runs at `now = 20000`,
timestamps in days). -/
def micOldRow : TranscriptRow := ⟨1, 19900, "microphone", "user", "old mic utterance", none⟩

/-- A 100-day-old record carrying a non-empty call-id, with source
`"microphone"`. -/
def callIdOldRow : TranscriptRow :=
  ⟨2, 19900, "microphone", "user", "old call utterance", some "call-123"⟩

/-- A 100-day-old record carrying a non-empty call-id, with source
`"vapi"`. -/
def vapiOldRow : TranscriptRow :=
  ⟨2, 19900, "vapi", "user", "old call utterance", some "call-123"⟩

/-- Counterexample to C5: a 100-day-old record with a non-empty call-id
but source `"microphone"` IS deleted by a 90-day cleanup — the code keys
retention on `source != 'vapi'`, never on the call-id. -/
theorem cleanup_deletes_old_callid_row :
    callIdOldRow.call_id = some "call-123" ∧
    cleanup_old_transcripts 20000 90 [micOldRow, callIdOldRow] = [] := by
  constructor <;> decide

/-- C5 amended: cleanup with an `N`-day window deletes exactly the records
older than `N` days whose source differs from `"vapi"`; `"vapi"` records
are retained regardless of age (and a non-`"vapi"` record is deleted when
stale even if it carries a call-id).  In the spec's scenario, when the
100-day-old call-id record has source `"vapi"`, only the microphone record
is deleted. -/
theorem cleanup_retention_by_source :
    (∀ (now ret : Int) (db : List TranscriptRow) (r : TranscriptRow),
      r ∈ cleanup_old_transcripts now ret db ↔
        r ∈ db ∧ ¬(r.timestamp < now - ret ∧ r.source ≠ "vapi")) ∧
    cleanup_old_transcripts 20000 90 [micOldRow, vapiOldRow] = [vapiOldRow] := by
  constructor
  · intro now ret db r
    simp [cleanup_old_transcripts, List.mem_filter, not_and]
    intro _
    constructor
    · rintro (h1 | h2) hts
      · omega
      · exact h2
    · intro h
      by_cases hts : r.timestamp < now - ret
      · exact Or.inr (h hts)
      · exact Or.inl (by omega)
  · decide

/-- A service that has completed one successful `start_listening`: flag
set, callback registered, one capture/transcription thread pair. -/
def listeningState : SvcState := ⟨true, some 0, 1, 1, []⟩

/-- Counterexample to C6: calling `start_listening` on an
already-listening pipeline returns normally — the result is `.ok` (no
`AlreadyListening` error reaches the caller), with only a warning logged;
threads and callback untouched. -/
theorem start_when_listening_no_error :
    start_listening listeningState 7 =
      .ok ⟨true, some 0, 1, 1, [⟨LogLevel.warning, "Already listening"⟩]⟩ := by
  rfl

/-- C6 amended: `start_listening` on an already-listening pipeline logs
the warning `"Already listening"` and returns normally, surfacing no error
to the caller; it spawns no second capture/process loop pair and leaves
the flag and the registered callback unchanged. -/
theorem start_already_listening_amended (s : SvcState) (cb : Nat)
    (h : s.is_listening = true) :
    ∃ s2, start_listening s cb = .ok s2 ∧
      s2.is_listening = s.is_listening ∧
      s2.transcript_callback = s.transcript_callback ∧
      s2.capture_threads = s.capture_threads ∧
      s2.transcription_threads = s.transcription_threads ∧
      s2.logs = s.logs ++ [⟨LogLevel.warning, "Already listening"⟩] := by
  refine ⟨{ s with logs := s.logs ++ [⟨LogLevel.warning, "Already listening"⟩] },
          ?_, rfl, rfl, rfl, rfl, rfl⟩
  simp [start_listening, h]

/-- Witness for the amended C6 at the concrete listening state. -/
theorem start_already_listening_witness :
    listeningState.is_listening = true ∧
    ∃ s2, start_listening listeningState 7 = .ok s2 ∧
      s2.is_listening = listeningState.is_listening ∧
      s2.transcript_callback = listeningState.transcript_callback ∧
      s2.capture_threads = listeningState.capture_threads ∧
      s2.transcription_threads = listeningState.transcription_threads ∧
      s2.logs = listeningState.logs ++ [⟨LogLevel.warning, "Already listening"⟩] :=
  ⟨rfl, start_already_listening_amended listeningState 7 rfl⟩

/-- C7: for every engine result, the emitter's text is the segment texts
joined with a single space and stripped; when that text is empty (also
when there are no segments) no Transcript is created and the callback is
not invoked; otherwise exactly one Transcript carrying that text is
delivered to the registered callback. -/
theorem emitter_join_strip_deliver_once :
    ∀ (segs : List String) (lang p dur nowIso ms : String),
      transcribeEmit ⟨segs, lang, p, dur⟩ nowIso ms =
        (if pyStrip (joinSpace segs) = "" then none
         else some ⟨nowIso, "microphone", pyStrip (joinSpace segs), "user", none,
                    ms, lang, p, dur⟩) ∧
      callbackDeliveries true ⟨segs, lang, p, dur⟩ nowIso ms =
        (if pyStrip (joinSpace segs) = "" then []
         else [⟨nowIso, "microphone", pyStrip (joinSpace segs), "user", none,
                ms, lang, p, dur⟩]) := by
  intro segs lang p dur nowIso ms
  have hmain : transcribeEmit ⟨segs, lang, p, dur⟩ nowIso ms =
      (if pyStrip (joinSpace segs) = "" then none
       else some ⟨nowIso, "microphone", pyStrip (joinSpace segs), "user", none,
                  ms, lang, p, dur⟩) := by
    cases segs with
    | nil =>
        have hempty : pyStrip (joinSpace ([] : List String)) = "" := rfl
        simp [transcribeEmit, hempty]
    | cons a as =>
        by_cases h : pyStrip (joinSpace (a :: as)) = "" <;>
          simp [transcribeEmit, h]
  refine ⟨hmain, ?_⟩
  by_cases h : pyStrip (joinSpace segs) = "" <;>
    simp [callbackDeliveries, hmain, h]

/-- Counterexample to C8's logging clause: a classifier failure logs at
error level — no warning-level record is produced. -/
theorem vad_error_logs_error_not_warning :
    isSpeechOf (.error "boom") = (false, [⟨LogLevel.error, "VAD error"⟩]) ∧
    ((isSpeechOf (.error "boom")).2.all
      (fun ev => !decide (ev.level = LogLevel.warning))) = true := by
  constructor <;> decide

/-- C8 amended: a classifier failure yields classification `false`, logs
an error-level message, never propagates (the step function is total and
equals the step on a genuine silence frame, so the loops continue and the
assembler state updates exactly as for silence). -/
theorem vad_error_treated_as_silence :
    ∀ (thr : Nat) (s : AsmState) (c : Chunk) (e : String),
      stepVad thr s c (Except.error e) = stepChunk thr s c false ∧
      (isSpeechOf (Except.error e)).1 = false ∧
      (isSpeechOf (Except.error e)).2 = [⟨LogLevel.error, "VAD error"⟩] :=
  fun _ _ _ _ => ⟨rfl, rfl, rfl⟩

/-! ## Queue lemmas (claim C9) -/

/-- Every reachable queue still has the constructed `maxsize = 0`. -/
lemma queueReach_maxsize {q : PyQueue} (h : QueueReach q) : q.maxsize = 0 := by
  induction h with
  | init => rfl
  | enq hq hput ih =>
      rw [PyQueue.put] at hput
      split at hput
      · cases hput; simpa using ih
      · cases hput
  | deq hq hitems ih => simpa using ih

/-- A queue holding any number of undequeued frames is reachable: the
capture side can always enqueue because `maxsize = 0` never blocks. -/
lemma queueReach_replicate : ∀ n : Nat, QueueReach ⟨0, List.replicate n []⟩ := by
  intro n
  induction n with
  | zero => exact QueueReach.init
  | succ m ih =>
      refine @QueueReach.enq _ _ ([] : Chunk) ih ?_
      simp [PyQueue.put, List.replicate_succ']

/-- Counterexample to C9: no fixed capacity bounds the number of
enqueued-but-not-yet-dequeued frames over the reachable states of the
audio queue. -/
theorem audio_queue_not_bounded :
    ¬ ∃ N : Nat, ∀ q : PyQueue, QueueReach q → q.items.length ≤ N := by
  rintro ⟨N, hN⟩
  have h := hN ⟨0, List.replicate (N + 1) []⟩ (queueReach_replicate (N + 1))
  simp at h

/-- C9 amended: the inter-loop queue is `queue.Queue()` with the default
`maxsize = 0`, i.e. an unbounded FIFO: every enqueue on a reachable queue
completes immediately (no blocking, no drop policy), and every backlog
length is reachable, so no capacity bound holds. -/
theorem audio_queue_unbounded :
    (∀ q : PyQueue, QueueReach q → ∀ c : Chunk, (q.put c).isSome = true) ∧
    (∀ N : Nat, ∃ q : PyQueue, QueueReach q ∧ N < q.items.length) := by
  constructor
  · intro q hq c
    simp [PyQueue.put, queueReach_maxsize hq]
  · intro N
    exact ⟨⟨0, List.replicate (N + 1) []⟩, queueReach_replicate (N + 1), by simp⟩

/-- Witness for the amended C9 at the initial queue. -/
theorem audio_queue_unbounded_witness :
    QueueReach initAudioQueue ∧ (initAudioQueue.put [(0 : Int)]).isSome = true :=
  ⟨QueueReach.init, audio_queue_unbounded.1 initAudioQueue QueueReach.init [(0 : Int)]⟩

/-! ## Sorting lemmas for the store's ORDER BY model -/

lemma mem_insertLe {α : Type} (le : α → α → Bool) (x : α) :
    ∀ (l : List α) (a : α), a ∈ insertLe le x l ↔ a = x ∨ a ∈ l := by
  intro l
  induction l with
  | nil => intro a; simp [insertLe]
  | cons y ys ih =>
      intro a
      by_cases h : le x y
      · simp [insertLe, h, ih]
      · simp [insertLe, h, ih]
        tauto

lemma mem_sortLe {α : Type} (le : α → α → Bool) :
    ∀ (l : List α) (a : α), a ∈ sortLe le l ↔ a ∈ l := by
  intro l
  induction l with
  | nil => intro a; simp [sortLe]
  | cons x xs ih => intro a; simp [sortLe, mem_insertLe, ih]

lemma pairwise_insertLe {α : Type} (le : α → α → Bool)
    (htot : ∀ a b, le a b = true ∨ le b a = true)
    (htrans : ∀ a b c, le a b = true → le b c = true → le a c = true)
    (x : α) :
    ∀ l : List α, l.Pairwise (fun a b => le a b = true) →
      (insertLe le x l).Pairwise (fun a b => le a b = true) := by
  intro l
  induction l with
  | nil => intro _; simp [insertLe]
  | cons y ys ih =>
      intro hl
      rcases List.pairwise_cons.mp hl with ⟨hy, hys⟩
      by_cases h : le x y
      · simp only [insertLe, if_pos h]
        refine List.pairwise_cons.mpr ⟨?_, hl⟩
        intro b hb
        rcases List.mem_cons.mp hb with rfl | hb
        · exact h
        · exact htrans x y b h (hy b hb)
      · simp only [insertLe, if_neg h]
        refine List.pairwise_cons.mpr ⟨?_, ih hys⟩
        intro b hb
        rcases (mem_insertLe le x ys b).mp hb with heq | hb
        · rcases htot x y with h1 | h1
          · exact absurd h1 h
          · rw [heq]; exact h1
        · exact hy b hb

lemma pairwise_sortLe {α : Type} (le : α → α → Bool)
    (htot : ∀ a b, le a b = true ∨ le b a = true)
    (htrans : ∀ a b c, le a b = true → le b c = true → le a c = true) :
    ∀ l : List α, (sortLe le l).Pairwise (fun a b => le a b = true) := by
  intro l
  induction l with
  | nil => simp [sortLe]
  | cons x xs ih =>
      simp only [sortLe]
      exact pairwise_insertLe le htot htrans x _ ih

lemma tsAsc_total : ∀ a b : TranscriptRow, tsAsc a b = true ∨ tsAsc b a = true := by
  intro a b
  simp [tsAsc]
  exact Int.le_total a.timestamp b.timestamp

lemma tsAsc_trans : ∀ a b c : TranscriptRow,
    tsAsc a b = true → tsAsc b c = true → tsAsc a c = true := by
  intro a b c
  simp [tsAsc]
  omega

lemma tsDesc_total : ∀ a b : TranscriptRow, tsDesc a b = true ∨ tsDesc b a = true := by
  intro a b
  simp [tsDesc]
  exact Int.le_total b.timestamp a.timestamp

lemma tsDesc_trans : ∀ a b c : TranscriptRow,
    tsDesc a b = true → tsDesc b c = true → tsDesc a c = true := by
  intro a b c
  simp [tsDesc]
  omega

/-- C10: `get_recent_transcripts` returns exactly the stored records in
the window (optionally source-filtered) in ascending timestamp order,
while `search_audio_transcripts` returns its matches in descending
timestamp order capped at the default limit of 50. -/
theorem retrieval_ordering_and_cap :
    (∀ (now minutes : Int) (src : Option String) (db : List TranscriptRow),
      (get_recent_transcripts now minutes src db).Pairwise
        (fun a b => a.timestamp ≤ b.timestamp) ∧
      (∀ r : TranscriptRow, r ∈ get_recent_transcripts now minutes src db ↔
        r ∈ db ∧ now - minutes ≤ r.timestamp ∧
          ∀ s, src = some s → r.source = s)) ∧
    (∀ (fts : String → String → Bool) (now daysBack : Int) (q : String)
        (db : List TranscriptRow),
      (search_audio_transcripts fts now daysBack defaultSearchLimit q db).Pairwise
        (fun a b => b.timestamp ≤ a.timestamp) ∧
      (search_audio_transcripts fts now daysBack defaultSearchLimit q db).length ≤ 50 ∧
      (∀ r ∈ search_audio_transcripts fts now daysBack defaultSearchLimit q db,
        r ∈ db ∧ fts q r.text = true ∧ now - daysBack ≤ r.timestamp)) := by
  constructor
  · intro now minutes src db
    constructor
    · have h := pairwise_sortLe tsAsc tsAsc_total tsAsc_trans
        (db.filter (fun r =>
          decide (now - minutes ≤ r.timestamp) &&
            match src with
            | some s => decide (r.source = s)
            | none => true))
      refine List.Pairwise.imp ?_ h
      intro a b hab
      simpa [tsAsc] using hab
    · intro r
      rw [get_recent_transcripts, mem_sortLe, List.mem_filter]
      cases src with
      | none => simp
      | some s => simp
  · intro fts now daysBack q db
    refine ⟨?_, ?_, ?_⟩
    · have h := pairwise_sortLe tsDesc tsDesc_total tsDesc_trans
        (db.filter (fun r => fts q r.text && decide (now - daysBack ≤ r.timestamp)))
      have h2 := h.sublist (List.take_sublist defaultSearchLimit _)
      refine List.Pairwise.imp ?_ h2
      intro a b hab
      simpa [tsDesc] using hab
    · rw [search_audio_transcripts]
      exact List.length_take_le _ _
    · intro r hr
      rw [search_audio_transcripts] at hr
      have hr2 := List.mem_of_mem_take hr
      rw [mem_sortLe, List.mem_filter] at hr2
      refine ⟨hr2.1, ?_, ?_⟩
      · have := hr2.2
        simp at this
        exact this.1
      · have := hr2.2
        simp at this
        omega

/-- Witness for C10 at a one-row store with an always-matching search. -/
theorem retrieval_ordering_and_cap_witness :
    micOldRow ∈ search_audio_transcripts (fun _ _ => true) 20000 200
        defaultSearchLimit "insurance" [micOldRow] ∧
    (micOldRow ∈ ([micOldRow] : List TranscriptRow) ∧
      (fun _ _ => true) "insurance" micOldRow.text = true ∧
      (20000 : Int) - 200 ≤ micOldRow.timestamp) ∧
    (micOldRow ∈ get_recent_transcripts 20000 200 none [micOldRow] ↔
      micOldRow ∈ ([micOldRow] : List TranscriptRow) ∧
        (20000 : Int) - 200 ≤ micOldRow.timestamp ∧
        ∀ s, (none : Option String) = some s → micOldRow.source = s) := by
  refine ⟨by decide, ?_, ?_⟩
  · exact (retrieval_ordering_and_cap.2 (fun _ _ => true) 20000 200 "insurance"
      [micOldRow]).2.2 micOldRow (by decide)
  · exact ((retrieval_ordering_and_cap.1 20000 200 none [micOldRow]).2 micOldRow)
